import Mathlib

/-!
Shallow embedding of `node.ext.ldap` (`src/node/ext/ldap/_node.py` and
`src/node/ext/ldap/ugm/posix.py`) and proofs about the behaviour of its
storage engine, attribute lifecycle and POSIX default-value provider.

Conventions of the embedding:
* Python `odict`-backed mappings become association lists
  `List (String × _)` that keep insertion order; Python `set`s become
  `Finset String` (`set.add` is `insert`, `set.remove` is guarded by a
  membership test and raises `KeyError` when the element is absent).
* Directory/session calls are boundary input: functions that read the
  directory take the session's answer as a parameter, and functions that
  write to the directory return the call they would issue.
* Wire encoding/decoding (`node.utils.encode` / `decode`) and the binary /
  multivalued attribute policy live outside this repository; they are
  passed in as opaque function parameters.
* Raising Python exceptions is modelled with `Except`/`Option` results.
-/

namespace NodeExtLdap

/-- Pending write intent of a node: `ACTION_ADD = 0`, `ACTION_MODIFY = 1`,
`ACTION_DELETE = 2` (`_node.py` lines 58-60).  Python's `None` action is
modelled as `Option Action = none`. -/
inductive Action
  | add
  | modify
  | delete
deriving DecidableEq, Repr

/-- An attribute value as stored in an attribute mapping: either one value or
an ordered list of values (multivalued), cf. `LDAPAttributesBehavior.load`
lines 106-110. -/
inductive Val
  | single (s : String)
  | multi (vs : List String)
deriving DecidableEq, Repr

/-- First-match association-list lookup, the embedding of `mapping[key]` /
`mapping.get(key)` on an `odict` with string keys. -/
def lookupA : List (String × Val) → String → Option Val
  | [], _ => none
  | (k, v) :: rest, key => if k = key then some v else lookupA rest key

/-- Python `key in mapping` on an attribute mapping. -/
def hasKey (l : List (String × Val)) (key : String) : Bool :=
  (lookupA l key).isSome

/-! ## `LDAPStorage._ldap_modify` (`_node.py` lines 721-745)

The modify list is built by two loops: one over the freshly loaded persisted
snapshot `orgin`, one over the live attribute set `self.attrs`.  `encS`
embeds `node.utils.encode` on attribute names / the DN, `encV` embeds it on
attribute values, `isBinary` embeds `self.attrs.is_binary`. -/

/-- The three wire modify-operation kinds `MOD_DELETE`, `MOD_ADD`,
`MOD_REPLACE`. -/
inductive ModKind
  | modAdd
  | modDelete
  | modReplace
deriving DecidableEq, Repr

/-- One entry of the modify list: `(operation, encoded key, value-or-None)`. -/
abbrev ModDef := ModKind × String × Option Val

/-- Body of the first loop of `_ldap_modify` (lines 727-731): for a key of
`orgin`, emit `MOD_DELETE` when the key is gone from the live attributes. -/
def modifyDeleteStep (encS : String → String) (attrs : List (String × Val))
    (key : String) : Option ModDef :=
  if hasKey attrs key then none else some (ModKind.modDelete, encS key, none)

/-- Body of the second loop of `_ldap_modify` (lines 732-743): for a key of
the live attributes, emit `MOD_ADD` when the key is absent from `orgin` and
`MOD_REPLACE` when both sides hold different values; the value is
wire-encoded unless the attribute is configured binary. -/
def modifyChangeStep (encS : String → String) (encV : Val → Val)
    (isBinary : String → Bool) (orgin attrs : List (String × Val))
    (key : String) : Option ModDef :=
  match lookupA attrs key with
  | none => none
  | some v =>
    let value := if isBinary key then v else encV v
    if ¬ hasKey orgin key then some (ModKind.modAdd, encS key, some value)
    else if lookupA orgin key ≠ some v then
      some (ModKind.modReplace, encS key, some value)
    else none

/-- The modify list built by `_ldap_modify` lines 724-743: both loops append
to one list, iterating the mappings in key order. -/
def ldapModlist (encS : String → String) (encV : Val → Val)
    (isBinary : String → Bool) (orgin attrs : List (String × Val)) :
    List ModDef :=
  let modlist :=
    (orgin.map Prod.fst).foldl
      (fun acc key => acc ++ (modifyDeleteStep encS attrs key).toList) []
  (attrs.map Prod.fst).foldl
    (fun acc key =>
      acc ++ (modifyChangeStep encS encV isBinary orgin attrs key).toList)
    modlist

/-- `_ldap_modify` lines 744-745: the session `modify` call issued, if any —
`none` when the modify list is empty. -/
def ldapModifyCall (encS : String → String) (encV : Val → Val)
    (isBinary : String → Bool) (dn : String)
    (orgin attrs : List (String × Val)) : Option (String × List ModDef) :=
  let modlist := ldapModlist encS encV isBinary orgin attrs
  if modlist = [] then none else some (encS dn, modlist)

/-- A `foldl` that conditionally appends one element per step is a
`filterMap`. -/
theorem foldl_append_toList {α β : Type} (g : α → Option β) :
    ∀ (l : List α) (init : List β),
      l.foldl (fun acc k => acc ++ (g k).toList) init = init ++ l.filterMap g
  | [], init => by simp
  | a :: l, init => by
    cases h : g a <;>
      simp [List.foldl_cons, h, foldl_append_toList g l, List.filterMap_cons]

/-- In a mapping whose keys are `Nodup`, lookup of a member pair's key gives
that pair's value. -/
theorem lookupA_eq_of_mem :
    ∀ {l : List (String × Val)} {p : String × Val},
      (l.map Prod.fst).Nodup → p ∈ l → lookupA l p.1 = some p.2 := by
  intro l
  induction l with
  | nil => intro p _ hp; cases hp
  | cons q rest ih =>
    intro p hnd hp
    simp only [List.map_cons, List.nodup_cons] at hnd
    rcases List.mem_cons.mp hp with hp | hp
    · simp [lookupA, hp]
    · have hne : q.1 ≠ p.1 := fun h => hnd.1 (h ▸ List.mem_map_of_mem Prod.fst hp)
      simp only [lookupA, if_neg hne]
      exact ih hnd.2 hp

/-- C1: committing a pending-Modify node builds a modify list holding exactly
one `MOD_DELETE` per attribute of the freshly loaded snapshot `orgin` absent
from the live attributes, one `MOD_ADD` per live attribute absent from
`orgin` (value wire-encoded unless configured binary), one `MOD_REPLACE` per
attribute present on both sides with differing values; the session `modify`
call is issued with exactly this list, and not issued at all precisely when
no attribute differs. -/
theorem ldap_modify_operation_list (encS : String → String) (encV : Val → Val)
    (isBinary : String → Bool) (dn : String) (orgin attrs : List (String × Val))
    (_horg : (orgin.map Prod.fst).Nodup) (hattrs : (attrs.map Prod.fst).Nodup) :
    ldapModlist encS encV isBinary orgin attrs
      = (orgin.filterMap fun p =>
          if hasKey attrs p.1 then none
          else some (ModKind.modDelete, encS p.1, none))
        ++ (attrs.filterMap fun p =>
          let value := if isBinary p.1 then p.2 else encV p.2
          if ¬ hasKey orgin p.1 then some (ModKind.modAdd, encS p.1, some value)
          else if lookupA orgin p.1 ≠ some p.2 then
            some (ModKind.modReplace, encS p.1, some value)
          else none)
    ∧ (ldapModifyCall encS encV isBinary dn orgin attrs = none ↔
        (∀ p ∈ orgin, hasKey attrs p.1) ∧ ∀ p ∈ attrs, lookupA orgin p.1 = some p.2)
    ∧ (ldapModlist encS encV isBinary orgin attrs ≠ [] →
        ldapModifyCall encS encV isBinary dn orgin attrs
          = some (encS dn, ldapModlist encS encV isBinary orgin attrs)) := by
  have hmain : ldapModlist encS encV isBinary orgin attrs
      = (orgin.filterMap fun p =>
          if hasKey attrs p.1 then none
          else some (ModKind.modDelete, encS p.1, none))
        ++ (attrs.filterMap fun p =>
          let value := if isBinary p.1 then p.2 else encV p.2
          if ¬ hasKey orgin p.1 then some (ModKind.modAdd, encS p.1, some value)
          else if lookupA orgin p.1 ≠ some p.2 then
            some (ModKind.modReplace, encS p.1, some value)
          else none) := by
    unfold ldapModlist
    rw [foldl_append_toList, foldl_append_toList, List.nil_append,
      List.filterMap_map, List.filterMap_map]
    have h1 : orgin.filterMap (modifyDeleteStep encS attrs ∘ Prod.fst)
        = orgin.filterMap fun p =>
            if hasKey attrs p.1 then none
            else some (ModKind.modDelete, encS p.1, none) :=
      List.filterMap_congr fun p _ => rfl
    have h2 : attrs.filterMap (modifyChangeStep encS encV isBinary orgin attrs ∘ Prod.fst)
        = attrs.filterMap fun p =>
            let value := if isBinary p.1 then p.2 else encV p.2
            if ¬ hasKey orgin p.1 then some (ModKind.modAdd, encS p.1, some value)
            else if lookupA orgin p.1 ≠ some p.2 then
              some (ModKind.modReplace, encS p.1, some value)
            else none :=
      List.filterMap_congr fun p hp => by
        have hl : lookupA attrs p.1 = some p.2 := lookupA_eq_of_mem hattrs hp
        simp [modifyChangeStep, hl]
    rw [h1, h2]
  refine ⟨hmain, ?_, ?_⟩
  · constructor
    · intro hnone
      have hempty : ldapModlist encS encV isBinary orgin attrs = [] := by
        by_contra hne
        simp [ldapModifyCall, if_neg hne] at hnone
      rw [hmain, List.append_eq_nil, List.filterMap_eq_nil_iff, List.filterMap_eq_nil_iff]
        at hempty
      obtain ⟨h1, h2⟩ := hempty
      refine ⟨fun p hp => ?_, fun p hp => ?_⟩
      · have := h1 p hp
        by_contra hk
        simp [hk] at this
      · have := h2 p hp
        by_cases hk : hasKey orgin p.1
        · by_cases he : lookupA orgin p.1 = some p.2
          · exact he
          · simp [hk, he] at this
        · simp [hk] at this
    · intro ⟨h1, h2⟩
      have hempty : ldapModlist encS encV isBinary orgin attrs = [] := by
        rw [hmain, List.append_eq_nil, List.filterMap_eq_nil_iff, List.filterMap_eq_nil_iff]
        refine ⟨fun p hp => by simp [h1 p hp], fun p hp => ?_⟩
        have hlo := h2 p hp
        have hk : hasKey orgin p.1 := by simp [hasKey, hlo]
        simp [hk, hlo]
      simp [ldapModifyCall, hempty]
  · intro hne
    simp [ldapModifyCall, if_neg hne]

/-- A sample freshly loaded snapshot for exercising `_ldap_modify`. -/
def sampleOrgin : List (String × Val) :=
  [("a", Val.single "1"), ("b", Val.single "2"), ("c", Val.single "3")]

/-- A sample live attribute set: "a" removed, "c" changed, "d" added. -/
def sampleAttrs : List (String × Val) :=
  [("b", Val.single "2"), ("c", Val.single "9"), ("d", Val.single "4")]

/-- Witness for `ldap_modify_operation_list` at a concrete snapshot/live pair:
"a" was removed, "d" was added, "c" was changed, "b" is untouched. -/
theorem ldap_modify_operation_list_witness :
    ((sampleOrgin.map Prod.fst).Nodup ∧ (sampleAttrs.map Prod.fst).Nodup)
    ∧ ldapModlist id id (fun _ => false) sampleOrgin sampleAttrs
      = [(ModKind.modDelete, "a", none),
         (ModKind.modReplace, "c", some (Val.single "9")),
         (ModKind.modAdd, "d", some (Val.single "4"))]
    ∧ ldapModifyCall id id (fun _ => false) "dc=my-domain,dc=com"
        sampleOrgin sampleAttrs
      = some ("dc=my-domain,dc=com",
          [(ModKind.modDelete, "a", none),
           (ModKind.modReplace, "c", some (Val.single "9")),
           (ModKind.modAdd, "d", some (Val.single "4"))]) := by
  have h := ldap_modify_operation_list id id (fun _ => false) "dc=my-domain,dc=com"
    sampleOrgin sampleAttrs (by decide) (by decide)
  exact ⟨⟨by decide, by decide⟩, h.1.trans (by decide),
    (h.2.2 (by decide)).trans (by decide)⟩

/-! ## `LDAPStorage.__iter__` (`_node.py` lines 327-366) -/

/-- `__iter__`.  `name` is the node's name (`none` when unset), `searchRes`
is the outcome of `self.search(attrlist=['dn'])`: `none` models the search
raising `NO_SUCH_OBJECT` (node not persisted yet, line 338), `some keys` the
result keys in directory result order.  The generator's yields are collected
into a list: persisted keys not staged for deletion (lines 340-363), then
every key of the pending-add set (lines 365-366; a Python set iterates in
unspecified order, the embedding fixes the sorted order). -/
def iterKeys (name : Option String) (searchRes : Option (List String))
    (deletedChildren : Finset String) (addedChildren : Finset String) :
    List String :=
  match name with
  | none => []
  | some _ =>
    let res := match searchRes with
      | none => []
      | some r => r
    (res.foldl (fun acc key =>
        if key ∈ deletedChildren then acc else acc ++ [key]) [])
      ++ addedChildren.sort (· ≤ ·)

/-- C2: iterating a named node yields exactly the directory-search keys minus
the deletion-staged ones, in result order, followed by the pending-add keys;
a node with no name yields nothing; `NO_SUCH_OBJECT` from the search acts as
an empty result, so only pending-add keys are yielded. -/
theorem iter_keys_order (nm : String) (res : List String)
    (deleted added : Finset String) :
    iterKeys (some nm) (some res) deleted added
      = res.filter (fun key => key ∉ deleted) ++ added.sort (· ≤ ·)
    ∧ (∀ key, key ∈ iterKeys (some nm) (some res) deleted added ↔
        (key ∈ res ∧ key ∉ deleted) ∨ key ∈ added)
    ∧ iterKeys none (some res) deleted added = []
    ∧ iterKeys (some nm) none deleted added = added.sort (· ≤ ·) := by
  have hfold : ∀ (l : List String) (init : List String),
      l.foldl (fun acc key =>
        if key ∈ deleted then acc else acc ++ [key]) init
        = init ++ l.filter (fun key => key ∉ deleted) := by
    intro l
    induction l with
    | nil => intro init; simp
    | cons a l ih =>
      intro init
      by_cases ha : a ∈ deleted <;>
        simp [List.foldl_cons, ha, ih, List.filter_cons]
  have hmain : iterKeys (some nm) (some res) deleted added
      = res.filter (fun key => key ∉ deleted) ++ added.sort (· ≤ ·) := by
    show (res.foldl _ []) ++ added.sort (· ≤ ·) = _
    rw [hfold res []]
    simp
  refine ⟨hmain, fun key => ?_, rfl, rfl⟩
  rw [hmain]
  simp [List.mem_filter, List.mem_append, Finset.mem_sort]

/-! ## `LDAPStorage._set_changed` (`_node.py` lines 437-481) -/

/-- The changed-flag-relevant core of one node: the `_changed` flag, the
three staged-children key sets and the changed flag of the `__attrs__`
nodespace (`none` models the nodespace not existing yet, the `KeyError`
branch of lines 472-474). -/
structure NodeCore where
  changed : Bool
  added : Finset String
  modified : Finset String
  deleted : Finset String
  attrsChanged : Option Bool
deriving DecidableEq

/-- The unset-blocking test of `_set_changed`: some child is staged as added,
modified or deleted (lines 463-466), or the attributes nodespace reports
itself changed (lines 467-474). -/
def blockedUnset (n : NodeCore) : Prop :=
  0 < n.added.card ∨ 0 < n.modified.card ∨ 0 < n.deleted.card
    ∨ n.attrsChanged = some true

instance (n : NodeCore) : Decidable (blockedUnset n) := by
  unfold blockedUnset; infer_instance

/-- `_set_changed` acting on a node together with its chain of ancestors
(head = the node itself, then parent, grandparent, ...).  A value equal to
the current flag returns immediately (lines 453-455); setting is
unconditional (lines 457-458); unsetting is refused while `blockedUnset`
holds (lines 459-476); an effective flip is propagated to the parent by
assigning the parent's `changed` property (lines 477-479). -/
def setChanged : Bool → List NodeCore → List NodeCore
  | _, [] => []
  | value, n :: ancestors =>
    if value = n.changed then n :: ancestors
    else if value then { n with changed := true } :: setChanged true ancestors
    else if blockedUnset n then n :: ancestors
    else { n with changed := false } :: setChanged false ancestors

/-- The C4 invariant on one node: the changed flag is set whenever its own
attributes are changed or any staged-children set is non-empty. -/
def flagInvariant (n : NodeCore) : Prop :=
  blockedUnset n → n.changed = true

instance (n : NodeCore) : Decidable (flagInvariant n) := by
  unfold flagInvariant; infer_instance

/-- `setChanged` preserves `flagInvariant` along the whole chain. -/
theorem setChanged_preserves_invariant :
    ∀ (v : Bool) (chain : List NodeCore),
      (∀ m ∈ chain, flagInvariant m) →
        ∀ m ∈ setChanged v chain, flagInvariant m
  | _, [], h => by simp [setChanged] at h ⊢
  | v, n :: anc, h => by
    simp only [setChanged]
    split_ifs with h1 h2 h3
    · exact h
    · intro m hm
      rcases List.mem_cons.mp hm with rfl | hm
      · intro _; rfl
      · exact setChanged_preserves_invariant true anc
          (fun q hq => h q (List.mem_cons_of_mem _ hq)) m hm
    · exact h
    · intro m hm
      rcases List.mem_cons.mp hm with rfl | hm
      · intro hb; exact absurd hb h3
      · exact setChanged_preserves_invariant false anc
          (fun q hq => h q (List.mem_cons_of_mem _ hq)) m hm

/-- C4: (1) `setChanged` preserves the invariant "changed is true whenever
own attributes are changed or a staged-children set is non-empty" on every
node of the chain; (2) an attempt to unset the flag while one of those
conditions holds leaves the state untouched with the flag still true;
(3) every effective flip of the head's flag is propagated to the parent
chain by the parent's own setter, and a non-flip propagates nothing. -/
theorem changed_flag_setter (v : Bool) (chain : List NodeCore)
    (n : NodeCore) (anc : List NodeCore) :
    ((∀ m ∈ chain, flagInvariant m) →
      ∀ m ∈ setChanged v chain, flagInvariant m)
    ∧ (flagInvariant n → blockedUnset n →
        setChanged false (n :: anc) = n :: anc ∧ n.changed = true)
    ∧ (∃ n', setChanged v (n :: anc)
        = n' :: (if n'.changed = n.changed then anc
                 else setChanged n'.changed anc)) := by
  refine ⟨setChanged_preserves_invariant v chain, ?_, ?_⟩
  · intro hinv hblock
    have hch : n.changed = true := hinv hblock
    refine ⟨?_, hch⟩
    simp [setChanged, hch, hblock]
  · simp only [setChanged]
    split_ifs with h1 h2 h3
    · exact ⟨n, by simp⟩
    · refine ⟨{ n with changed := true }, ?_⟩
      have hn : n.changed = false := by
        cases hc : n.changed
        · rfl
        · subst h2; simp [hc] at h1
      simp [hn]
    · exact ⟨n, by simp⟩
    · have hn : n.changed = true := by
        cases hc : n.changed
        · rw [hc] at h1
          simp at h1
          exact absurd h1 h2
        · rfl
      exact ⟨{ n with changed := false }, by simp [hn]⟩

/-- A concrete two-node chain for exercising `changed_flag_setter`: the head
has a staged added child, so unsetting is refused. -/
def chainSample : List NodeCore :=
  [⟨true, {"cn=child"}, ∅, ∅, none⟩, ⟨true, ∅, ∅, ∅, some false⟩]

/-- Witness for `changed_flag_setter`: on the concrete chain the invariant
holds, is preserved by an unset attempt, and the blocked unset leaves the
head's flag true. -/
theorem changed_flag_setter_witness :
    (∀ m ∈ chainSample, flagInvariant m)
    ∧ (∀ m ∈ setChanged false chainSample, flagInvariant m)
    ∧ (flagInvariant ⟨true, {"cn=child"}, ∅, ∅, none⟩
        ∧ blockedUnset ⟨true, {"cn=child"}, ∅, ∅, none⟩)
    ∧ setChanged false (⟨true, {"cn=child"}, ∅, ∅, none⟩
        :: [⟨true, ∅, ∅, ∅, some false⟩])
      = ⟨true, {"cn=child"}, ∅, ∅, none⟩ :: [⟨true, ∅, ∅, ∅, some false⟩] := by
  have h := changed_flag_setter false chainSample
    ⟨true, {"cn=child"}, ∅, ∅, none⟩ [⟨true, ∅, ∅, ∅, some false⟩]
  exact ⟨by decide, h.1 (by decide), ⟨by decide, by decide⟩,
    (h.2.1 (by decide) (by decide)).1⟩

/-! ## Staging and commit: `__setitem__` (lines 252-314), `__delitem__`
(lines 316-325), `__call__` (lines 368-390), `_ldap_add`/`_ldap_delete`
(lines 711-719, 747-751) -/

/-- `_set_changed` through the `changed` property of a single node whose
parent, if any, is handled by the caller: the head of `setChanged` on the
one-node chain. -/
def setOwnChanged (v : Bool) (n : NodeCore) : NodeCore :=
  match setChanged v [n] with
  | m :: _ => m
  | [] => n

/-- `setOwnChanged` unfolded to the four branches of `_set_changed`. -/
theorem setOwnChanged_eq (v : Bool) (n : NodeCore) :
    setOwnChanged v n
      = if v = n.changed then n
        else if v then { n with changed := true }
        else if blockedUnset n then n
        else { n with changed := false } := by
  unfold setOwnChanged setChanged
  split_ifs <;> rfl

/-- State of one cached child as needed by staging and commit.  Children are
modelled as leaves: they have no staged children of their own, so their
`changed` property unsets freely once their attributes flag is cleared. -/
structure ChildRec where
  action : Option Action
  changed : Bool
  attrsChanged : Option Bool
deriving DecidableEq

/-- A write call issued to the boundary session. -/
inductive SessionOp
  | addEntry (dn : String)
  | modifyEntry (dn : String)
  | deleteEntry (dn : String)
deriving DecidableEq

/-- Parent node state for staging/commit: distinguished name, the
insertion-ordered child cache `storage`, the changed/staged-sets core, the
parent's own pending action and the ordered log of directory write calls
issued. -/
structure ParentState where
  dn : String
  storage : List (String × ChildRec)
  core : NodeCore
  action : Option Action
  log : List SessionOp
deriving DecidableEq

/-- `self.storage[key]` on the child cache. -/
def lookupC : List (String × ChildRec) → String → Option ChildRec
  | [], _ => none
  | (k, v) :: rest, key => if k = key then some v else lookupC rest key

/-- `self.storage[key] = val`: replace in place, append when new. -/
def storeC : List (String × ChildRec) → String → ChildRec →
    List (String × ChildRec)
  | [], key, c => [(key, c)]
  | (k, v) :: rest, key, c =>
    if k = key then (k, c) :: rest else (k, v) :: storeC rest key c

/-- Update the record under `key` when present, keep the list otherwise
(used for writes to a child object that may already have been deleted from
the cache). -/
def updateC (l : List (String × ChildRec)) (key : String) (c : ChildRec) :
    List (String × ChildRec) :=
  l.map fun p => if p.1 = key then (p.1, c) else p

/-- `del self.storage[key]`. -/
def eraseC (l : List (String × ChildRec)) (key : String) :
    List (String × ChildRec) :=
  l.filter fun p => p.1 ≠ key

/-- `child_dn` (lines 483-488): comma-join the key onto this node's DN. -/
def childDN (st : ParentState) (key : String) : String :=
  key ++ "," ++ st.dn

/-- `__setitem__` in the case where the existence probe raises
`NO_SUCH_OBJECT` (lines 286-297): the value node gets `_action = ACTION_ADD`
and `changed = True` (propagating `changed = True` into the parent through
the parent's setter, which line 296 also sets explicitly), the key is added
to the parent's added-children set (line 297) and the node is stored in the
child cache (line 299).  Key-attribute fixups and child defaults concern the
child's attribute mapping, which `ChildRec` does not carry;
`childAttrsChanged` is the state of the value node's attributes flag. -/
def setitemNew (st : ParentState) (key : String)
    (childAttrsChanged : Option Bool) : ParentState :=
  { st with
    storage := storeC st.storage key ⟨some Action.add, true, childAttrsChanged⟩,
    core := { setOwnChanged true st.core with
              added := insert key (setOwnChanged true st.core).added } }

/-- `__delitem__` (lines 316-325): resolve the child (`none` when it is not
materialized — resolving would then go to the directory, outside this
model), unconditionally overwrite its action with `ACTION_DELETE`, set its
changed flag (propagating to the parent only on an effective flip), and add
the key to the parent's deleted-children set. -/
def delitem (st : ParentState) (key : String) : Option ParentState :=
  match lookupC st.storage key with
  | none => none
  | some c =>
    let core' := if c.changed then st.core else setOwnChanged true st.core
    some { st with
      storage := storeC st.storage key
        { c with action := some Action.delete, changed := true },
      core := { core' with deleted := insert key core'.deleted } }

/-- Errors raised during commit. -/
inductive CommitErr
  | keyError        -- `set.remove` of an element not in the set
  | attributeError  -- attribute access on a `None` parent
  | notMaterialized -- `self[key]` for a non-cached key would hit the directory
deriving DecidableEq

/-- Lines 381-386 of a child's `__call__`: clear the attributes-nodespace
changed flag when the nodespace exists, unset the child's changed flag (an
effective flip, propagated into the parent through the parent's setter) and
clear the action.  The child's record is updated in place when it is still
cached; a deletion-committed child is already gone from the cache. -/
def childCleanup (st : ParentState) (key : String) (c : ChildRec) :
    ParentState :=
  let c' : ChildRec :=
    { action := none, changed := false,
      attrsChanged := match c.attrsChanged with
        | none => none
        | some _ => some false }
  { st with
    storage := updateC st.storage key c',
    core := setOwnChanged false st.core }

/-- One cached child's `__call__` (lines 368-386) during the parent's flush;
`c` is the child's current record, `modNonempty` tells whether the child's
`_ldap_modify` list (cf. `ldapModlist`) is non-empty, deciding whether the
modify branch issues a session call.  The set removals of lines 372, 376 and
379 raise `KeyError` when the key is missing from the respective set;
`_ldap_delete` removes the child from the cache before the session call. -/
def childCall (st : ParentState) (key : String) (c : ChildRec)
    (modNonempty : Bool) : Except CommitErr ParentState :=
  if c.changed ∧ c.action ≠ none then
    match c.action with
    | some Action.add =>
      if key ∈ st.core.added then
        childCleanup
          { st with
            core := { st.core with added := st.core.added.erase key },
            log := st.log ++ [SessionOp.addEntry (childDN st key)] }
          key c |> Except.ok
      else .error .keyError
    | some Action.modify =>
      if key ∈ st.core.modified then
        childCleanup
          { st with
            core := { st.core with modified := st.core.modified.erase key },
            log := st.log ++
              (if modNonempty then [SessionOp.modifyEntry (childDN st key)]
               else []) }
          key c |> Except.ok
      else .error .keyError
    | some Action.delete =>
      if key ∈ st.core.deleted then
        childCleanup
          { st with
            core := { st.core with deleted := st.core.deleted.erase key },
            storage := eraseC st.storage key,
            log := st.log ++ [SessionOp.deleteEntry (childDN st key)] }
          key c |> Except.ok
      else .error .keyError
    | none => .ok st
  else .ok st

/-- One iteration of the loop of lines 388-390: re-resolve the child by key
(a key no longer cached was deletion-committed earlier in this very loop and
its object's changed flag was cleared then, so Python skips it as well) and
run its `__call__` when it is still changed. -/
def visitChild (modN : String → Bool) (st : ParentState) (key : String) :
    Except CommitErr ParentState :=
  match lookupC st.storage key with
  | none => .ok st
  | some c => if c.changed then childCall st key c (modN key) else .ok st

/-- `__call__` on a parentless (root) node, lines 368-390.  The root's own
pending action: `ACTION_ADD`/`ACTION_DELETE` would access
`self.parent._added_children`/`._deleted_children` on a `None` parent
(`AttributeError`); `ACTION_MODIFY` skips the line-375 removal (no parent)
and issues the modify call when `rootMod` says the root's modify list is
non-empty, then lines 381-386 clear the root's flags.  Afterwards the
deletion-staged children are materialized (all must be cached, else the
lookup would hit the directory) and every still-changed child of
`storage.values() + deleted` is flushed in order. -/
def rootCall (st : ParentState) (rootMod : Bool) (modN : String → Bool) :
    Except CommitErr ParentState := do
  let st1 ←
    if st.core.changed ∧ st.action ≠ none then
      match st.action with
      | some Action.add => .error CommitErr.attributeError
      | some Action.delete => .error CommitErr.attributeError
      | some Action.modify =>
        let st' : ParentState :=
          { st with
            log := st.log ++
              (if rootMod then [SessionOp.modifyEntry st.dn] else []),
            core := setOwnChanged false
              { st.core with
                attrsChanged := match st.core.attrsChanged with
                  | none => none
                  | some _ => some false },
            action := none }
        Except.ok st'
      | none => .ok st
    else .ok st
  if ∀ key ∈ st1.core.deleted, (lookupC st1.storage key).isSome then
    (st1.storage.map Prod.fst ++ st1.core.deleted.sort (· ≤ ·)).foldlM
      (visitChild modN) st1
  else .error CommitErr.notMaterialized

/-- Setting the changed property to true always results in a set flag and
changes nothing else. -/
theorem setOwnChanged_true (n : NodeCore) :
    setOwnChanged true n = { n with changed := true } := by
  rw [setOwnChanged_eq]
  cases n with
  | mk c a m d at_ => cases c <;> simp

/-- The changed property setter touches only the flag. -/
theorem setOwnChanged_added (v : Bool) (n : NodeCore) :
    (setOwnChanged v n).added = n.added := by
  rw [setOwnChanged_eq]; split_ifs <;> rfl

/-- Commit of a child whose action is not `ACTION_ADD` leaves the parent's
added-children set untouched. -/
theorem childCall_added_unchanged (st : ParentState) (key : String)
    (c : ChildRec) (m : Bool) (st' : ParentState)
    (h : childCall st key c m = Except.ok st')
    (hne : c.action ≠ some Action.add) :
    st'.core.added = st.core.added := by
  unfold childCall at h
  by_cases hg : c.changed = true ∧ c.action ≠ none
  · rw [if_pos hg] at h
    rcases hact : c.action with _ | a
    · rw [hact] at h
      injection h with h'
      rw [← h']
    · cases a
      · exact absurd hact hne
      · rw [hact] at h
        dsimp only at h
        by_cases hk : key ∈ st.core.modified
        · rw [if_pos hk] at h
          injection h with h'
          rw [← h']
          simp [childCleanup, setOwnChanged_added]
        · rw [if_neg hk] at h
          cases h
      · rw [hact] at h
        dsimp only at h
        by_cases hk : key ∈ st.core.deleted
        · rw [if_pos hk] at h
          injection h with h'
          rw [← h']
          simp [childCleanup, setOwnChanged_added]
        · rw [if_neg hk] at h
          cases h
  · rw [if_neg hg] at h
    injection h with h'
    rw [← h']

/-- C3: a child staged pending-Add and then deleted before commit has its
action unconditionally overwritten to Delete and its key recorded in the
parent's deleted-children set while it also stays in the added-children set;
committing the parent's subtree succeeds, leaves the key in the
added-children set (and removes it from the deleted-children set), because
commit removes a key from added-children only when the child's action is
still Add. -/
theorem staged_add_then_delete_added_key_persists (p : ParentState)
    (key : String) (attrsC : Option Bool) (rootMod : Bool)
    (modN : String → Bool) (hstorage : p.storage = [])
    (hdel : p.core.deleted = ∅) (haction : p.action = none) :
    (∃ st2 st3,
      delitem (setitemNew p key attrsC) key = some st2
      ∧ lookupC st2.storage key = some ⟨some Action.delete, true, attrsC⟩
      ∧ key ∈ st2.core.deleted ∧ key ∈ st2.core.added
      ∧ rootCall st2 rootMod modN = Except.ok st3
      ∧ key ∈ st3.core.added ∧ key ∉ st3.core.deleted)
    ∧ (∀ (st : ParentState) (k : String) (c : ChildRec) (m : Bool)
        (st' : ParentState),
        childCall st k c m = Except.ok st' → c.action ≠ some Action.add →
        st'.core.added = st.core.added) := by
  refine ⟨?_, fun st k c m st' h hne => childCall_added_unchanged st k c m st' h hne⟩
  obtain ⟨dn, storage, core, action, log⟩ := p
  obtain ⟨chg, added, modified, deleted, attrsChg⟩ := core
  simp only at hstorage hdel haction
  subst hstorage hdel haction
  refine ⟨⟨dn, [(key, ⟨some Action.delete, true, attrsC⟩)],
      ⟨true, insert key added, modified, insert key ∅, attrsChg⟩, none, log⟩,
    ⟨dn, [], ⟨true, insert key added, modified, ∅, attrsChg⟩, none,
      log ++ [SessionOp.deleteEntry (key ++ "," ++ dn)]⟩,
    ?_, ?_, ?_, ?_, ?_, ?_, ?_⟩
  · simp [setitemNew, delitem, storeC, lookupC, setOwnChanged_true]
  · simp [lookupC]
  · simp
  · simp
  · have hblocked : blockedUnset ⟨true, insert key added, modified, ∅, attrsChg⟩ := by
      left
      simp [Finset.card_pos]
    simp [rootCall, visitChild, childCall, childCleanup, lookupC, eraseC,
      updateC, childDN, setOwnChanged_eq, hblocked, Finset.sort_singleton,
      Bind.bind, Except.bind, List.foldlM, Finset.erase_singleton, pure,
      Except.pure]
  · simp
  · simp

/-- An empty, unchanged root node bound to a base DN. -/
def parentSample : ParentState :=
  ⟨"dc=my-domain,dc=com", [], ⟨false, ∅, ∅, ∅, none⟩, none, []⟩

/-- Witness for `staged_add_then_delete_added_key_persists` on a concrete
empty parent and the key `cn=foo`. -/
theorem staged_add_then_delete_added_key_persists_witness :
    (parentSample.storage = [] ∧ parentSample.core.deleted = ∅
      ∧ parentSample.action = none)
    ∧ ∃ st2 st3,
        delitem (setitemNew parentSample "cn=foo" none) "cn=foo" = some st2
        ∧ lookupC st2.storage "cn=foo"
            = some ⟨some Action.delete, true, none⟩
        ∧ "cn=foo" ∈ st2.core.deleted ∧ "cn=foo" ∈ st2.core.added
        ∧ rootCall st2 false (fun _ => false) = Except.ok st3
        ∧ "cn=foo" ∈ st3.core.added ∧ "cn=foo" ∉ st3.core.deleted :=
  ⟨⟨rfl, rfl, rfl⟩,
    (staged_add_then_delete_added_key_persists parentSample "cn=foo" none
      false (fun _ => false) rfl rfl rfl).1⟩

/-! ## `LDAPAttributesBehavior` (`_node.py` lines 63-154): the plumbed write
path `__setitem__`/`_set_attrs_modified` (lines 125-146) and `load`
(lines 70-123) -/

/-- Python truthiness of `ldap_node.name`: `None` and the empty text are
falsy. -/
def nameFalsy : Option String → Bool
  | none => true
  | some s => s.isEmpty

/-- State of an LDAP node as seen by the attributes behaviour: name, session
binding, pending action, the attribute mapping, the reload flag, the child
cache, the node's own changed/staged-sets core (`attrsChanged` inside it is
the attributes nodespace's flag) and the chain of ancestors, parent
first. -/
structure LDAPNodeState where
  name : Option String
  hasSession : Bool
  action : Option Action
  attrs : List (String × Val)
  reload : Bool
  storage : List (String × ChildRec)
  core : NodeCore
  ancestors : List NodeCore
deriving DecidableEq

/-- `attrs[key] = val` on the underlying mapping: replace in place, append
when new. -/
def storeA : List (String × Val) → String → Val → List (String × Val)
  | [], key, v => [(key, v)]
  | (k, w) :: rest, key, v =>
    if k = key then (k, v) :: rest else (k, w) :: storeA rest key v

/-- `_set_attrs_modified` (lines 138-146): set the attribute-set changed
flag; when the owning node is not pending-Add/Delete, promote it to
pending-Modify, set its changed flag through the property setter (which
propagates along the ancestor chain) and add its key to the parent's
modified-children set when a parent exists. -/
def setAttrsModified (st : LDAPNodeState) : LDAPNodeState :=
  let core1 := { st.core with attrsChanged := some true }
  if st.action = some Action.add ∨ st.action = some Action.delete then
    { st with core := core1 }
  else
    match setChanged true (core1 :: st.ancestors) with
    | core2 :: anc2 =>
      let anc3 := match anc2 with
        | [] => []
        | par :: rest =>
          { par with modified := insert (st.name.getD "") par.modified } :: rest
      { st with action := some Action.modify, core := core2, ancestors := anc3 }
    | [] => { st with action := some Action.modify, core := core1 }

/-- The plumbed `__setitem__` (lines 125-131): decode the value unless the
key is configured binary, decode the key, store, then run
`_set_attrs_modified`.  `dS`/`dV` embed `node.utils.decode` on keys and
values. -/
def attrsSetitem (isBinary : String → Bool) (dS : String → String)
    (dV : Val → Val) (st : LDAPNodeState) (key : String) (val : Val) :
    LDAPNodeState :=
  let val' := if isBinary key then val else dV val
  let key' := dS key
  setAttrsModified { st with attrs := storeA st.attrs key' val' }

/-- One iteration of the loop of `load` lines 106-110: a returned attribute
with exactly one value that is not configured multivalued is stored single,
every other one is stored as the full list, in both cases through the
plumbed `__setitem__`. -/
def loadSetStep (mv isBinary : String → Bool) (dS : String → String)
    (dV : Val → Val) (acc : LDAPNodeState) (kv : String × List String) :
    LDAPNodeState :=
  if kv.2.length = 1 ∧ ¬ mv kv.1 then
    attrsSetitem isBinary dS dV acc kv.1 (Val.single kv.2.headI)
  else attrsSetitem isBinary dS dV acc kv.1 (Val.multi kv.2)

/-- Failures of `load`. -/
inductive LoadErr
  | fatal     -- RuntimeError lines 99-103: result length differs from one
  | keyError  -- line 121: the parent's modified-children set lacks the key
deriving DecidableEq

/-- `load` (lines 70-123).  `entry` is the boundary session's answer to the
base-scope search of lines 92-97: a list of `(dn, attribute → raw values)`
pairs.  Nothing is loaded for a node with falsy name, no session or pending
Add (lines 73-77).  Otherwise the mapping is cleared (line 79, the plain
reinitialisation of the underlying odict), exactly one result entry is
required (lines 98-103), each returned attribute is stored through the
plumbed `__setitem__` (lines 106-110), the attribute-set changed flag is
cleared (line 113), and unless the node is pending-Add/Delete its key is
removed from the parent's modified-children set when a parent exists
(`KeyError` when absent, line 121), its action is cleared and its changed
flag is unset through the property setter (lines 122-123). -/
def load (mv isBinary : String → Bool) (dS : String → String) (dV : Val → Val)
    (entry : List (String × List (String × List String)))
    (st : LDAPNodeState) : Except LoadErr LDAPNodeState :=
  if nameFalsy st.name ∨ ¬ st.hasSession ∨ st.action = some Action.add then
    .ok st
  else
    let st1 := { st with attrs := [] }
    match entry with
    | [e] =>
      let st2 := e.2.foldl (loadSetStep mv isBinary dS dV) st1
      let st3 := { st2 with core := { st2.core with attrsChanged := some false } }
      if st3.action = some Action.add ∨ st3.action = some Action.delete then
        .ok st3
      else
        match st3.ancestors with
        | par :: rest =>
          let nm := st3.name.getD ""
          if nm ∈ par.modified then
            let st4 := { st3 with
              ancestors :=
                { par with modified := par.modified.erase nm } :: rest,
              action := none }
            match setChanged false (st4.core :: st4.ancestors) with
            | c :: anc => .ok { st4 with core := c, ancestors := anc }
            | [] => .ok st4
          else .error .keyError
        | [] =>
          let st4 := { st3 with action := none }
          match setChanged false (st4.core :: st4.ancestors) with
          | c :: anc => .ok { st4 with core := c, ancestors := anc }
          | [] => .ok st4
    | _ => .error .fatal

/-- Along `setChanged`, every node keeps all fields except possibly having
its changed flag set to the propagated value. -/
theorem setChanged_forall2 (v : Bool) :
    ∀ (l : List NodeCore),
      List.Forall₂ (fun n n' => n' = n ∨ n' = { n with changed := v })
        l (setChanged v l) := by
  intro l
  induction l with
  | nil => exact List.Forall₂.nil
  | cons n anc ih =>
    simp only [setChanged]
    split_ifs with h1 h2 h3
    · exact List.Forall₂.cons (Or.inl rfl)
        (List.forall₂_same.mpr fun x _ => Or.inl rfl)
    · subst h2
      exact List.Forall₂.cons (Or.inr rfl) ih
    · exact List.Forall₂.cons (Or.inl rfl)
        (List.forall₂_same.mpr fun x _ => Or.inl rfl)
    · have hv : v = false := by
        cases v
        · rfl
        · exact absurd rfl h2
      subst hv
      exact List.Forall₂.cons (Or.inr rfl) ih

/-- `setChanged` on a non-empty chain: head and tail with the
field-preservation relation. -/
theorem setChanged_cons_head (v : Bool) (n : NodeCore) (anc : List NodeCore) :
    ∃ n' anc', setChanged v (n :: anc) = n' :: anc'
      ∧ (n' = n ∨ n' = { n with changed := v })
      ∧ List.Forall₂ (fun m m' => m' = m ∨ m' = { m with changed := v })
          anc anc' := by
  have h := setChanged_forall2 v (n :: anc)
  cases hs : setChanged v (n :: anc) with
  | nil => rw [hs] at h; cases h
  | cons n' anc' =>
    rw [hs] at h
    cases h with
    | cons h1 h2 => exact ⟨n', anc', rfl, h1, h2⟩

/-- Unsetting the changed property of an unblocked node clears its flag. -/
theorem setChanged_false_head (n : NodeCore) (anc : List NodeCore)
    (hnb : ¬ blockedUnset n) :
    ∃ anc', setChanged false (n :: anc)
      = { n with changed := false } :: anc' := by
  simp only [setChanged]
  by_cases h1 : (false : Bool) = n.changed
  · rw [if_pos h1]
    refine ⟨anc, ?_⟩
    cases n with
    | mk c a m d at_ =>
      simp only at h1
      rw [← h1]
  · rw [if_neg h1, if_neg (by simp : ¬ ((false : Bool) = true)), if_neg hnb]
    exact ⟨setChanged false anc, rfl⟩

/-- The plumbed attribute write on a node that is not pending-Add/Delete:
name, session, reload, storage and all staged-children sets are preserved,
the action becomes pending-Modify, and the parent (when present) keeps its
added/deleted sets while its modified set gains the node's key. -/
theorem attrsSetitem_facts (bin : String → Bool) (dS : String → String)
    (dV : Val → Val) (st : LDAPNodeState) (key : String) (v : Val)
    (hact : st.action = none ∨ st.action = some Action.modify) :
    (attrsSetitem bin dS dV st key v).name = st.name
    ∧ (attrsSetitem bin dS dV st key v).hasSession = st.hasSession
    ∧ (attrsSetitem bin dS dV st key v).reload = st.reload
    ∧ (attrsSetitem bin dS dV st key v).storage = st.storage
    ∧ (attrsSetitem bin dS dV st key v).action = some Action.modify
    ∧ (attrsSetitem bin dS dV st key v).core.added = st.core.added
    ∧ (attrsSetitem bin dS dV st key v).core.modified = st.core.modified
    ∧ (attrsSetitem bin dS dV st key v).core.deleted = st.core.deleted
    ∧ (∀ par rest, st.ancestors = par :: rest →
        ∃ par' rest', (attrsSetitem bin dS dV st key v).ancestors
            = par' :: rest'
          ∧ par'.modified = insert (st.name.getD "") par.modified
          ∧ par'.added = par.added ∧ par'.deleted = par.deleted) := by
  have hne : ¬ (st.action = some Action.add ∨ st.action = some Action.delete) := by
    rcases hact with h | h <;> rw [h] <;> simp
  unfold attrsSetitem setAttrsModified
  rw [if_neg hne]
  obtain ⟨core2, anc2, hs, hhead, htail⟩ :=
    setChanged_cons_head true { st.core with attrsChanged := some true }
      st.ancestors
  rw [hs]
  have hcadded : core2.added = st.core.added := by
    rcases hhead with rfl | rfl <;> rfl
  have hcmod : core2.modified = st.core.modified := by
    rcases hhead with rfl | rfl <;> rfl
  have hcdel : core2.deleted = st.core.deleted := by
    rcases hhead with rfl | rfl <;> rfl
  refine ⟨rfl, rfl, rfl, rfl, rfl, hcadded, hcmod, hcdel, ?_⟩
  intro par rest hanc
  rw [hanc] at htail
  cases htail with
  | cons hp ht =>
    rename_i par2 rest2
    have hpmod : par2.modified = par.modified := by
      rcases hp with rfl | rfl <;> rfl
    have hpadd : par2.added = par.added := by
      rcases hp with rfl | rfl <;> rfl
    have hpdel : par2.deleted = par.deleted := by
      rcases hp with rfl | rfl <;> rfl
    exact ⟨{ par2 with modified := insert (st.name.getD "") par2.modified },
      rest2, rfl, by rw [hpmod], hpadd, hpdel⟩

/-- The attribute-storing loop of `load`: running it on a parented node that
is not pending-Add/Delete preserves name, session, reload, storage and the
node's staged-children sets; a non-empty loop leaves the node pending-Modify
with its key inserted into the parent's modified-children set, an empty loop
changes nothing. -/
theorem foldl_loadSetStep_facts (mv bin : String → Bool)
    (dS : String → String) (dV : Val → Val) :
    ∀ (l : List (String × List String)) (st : LDAPNodeState) (par : NodeCore)
      (rest : List NodeCore),
      st.ancestors = par :: rest →
      (st.action = none ∨ st.action = some Action.modify) →
      ∃ par' rest',
        (l.foldl (loadSetStep mv bin dS dV) st).name = st.name
        ∧ (l.foldl (loadSetStep mv bin dS dV) st).hasSession = st.hasSession
        ∧ (l.foldl (loadSetStep mv bin dS dV) st).reload = st.reload
        ∧ (l.foldl (loadSetStep mv bin dS dV) st).storage = st.storage
        ∧ (l.foldl (loadSetStep mv bin dS dV) st).core.added = st.core.added
        ∧ (l.foldl (loadSetStep mv bin dS dV) st).core.modified
            = st.core.modified
        ∧ (l.foldl (loadSetStep mv bin dS dV) st).core.deleted
            = st.core.deleted
        ∧ (l.foldl (loadSetStep mv bin dS dV) st).ancestors = par' :: rest'
        ∧ par'.added = par.added ∧ par'.deleted = par.deleted
        ∧ ((l.foldl (loadSetStep mv bin dS dV) st).action = none
            ∨ (l.foldl (loadSetStep mv bin dS dV) st).action
                = some Action.modify)
        ∧ (l = [] → l.foldl (loadSetStep mv bin dS dV) st = st ∧ par' = par)
        ∧ (l ≠ [] →
            (l.foldl (loadSetStep mv bin dS dV) st).action = some Action.modify
            ∧ par'.modified = insert (st.name.getD "") par.modified) := by
  intro l
  induction l with
  | nil =>
    intro st par rest hanc hact
    exact ⟨par, rest, rfl, rfl, rfl, rfl, rfl, rfl, rfl, hanc, rfl, rfl, hact,
      fun _ => ⟨rfl, rfl⟩, fun hne => absurd rfl hne⟩
  | cons kv l ih =>
    intro st par rest hanc hact
    rw [List.foldl_cons]
    have hstep : ∃ v, loadSetStep mv bin dS dV st kv
        = attrsSetitem bin dS dV st kv.1 v := by
      unfold loadSetStep
      by_cases hc : kv.2.length = 1 ∧ ¬ mv kv.1
      · exact ⟨Val.single kv.2.headI, if_pos hc⟩
      · exact ⟨Val.multi kv.2, if_neg hc⟩
    obtain ⟨v, hv⟩ := hstep
    rw [hv]
    obtain ⟨hnm, hses, hrel, hsto, hactA, hadd, hmod, hdel, hancf⟩ :=
      attrsSetitem_facts bin dS dV st kv.1 v hact
    obtain ⟨parA, restA, hancA, hparAmod, hparAadd, hparAdel⟩ :=
      hancf par rest hanc
    obtain ⟨par', rest', ih1, ih2, ih3, ih4, ih5, ih6, ih7, ih8, ih9, ih10,
        ih11, ih12, ih13⟩ :=
      ih (attrsSetitem bin dS dV st kv.1 v) parA restA hancA (Or.inr hactA)
    refine ⟨par', rest', ih1.trans hnm, ih2.trans hses, ih3.trans hrel,
      ih4.trans hsto, ih5.trans hadd, ih6.trans hmod, ih7.trans hdel, ih8,
      ih9.trans hparAadd, ih10.trans hparAdel, ih11,
      fun habs => absurd habs (by simp), fun _ => ⟨?_, ?_⟩⟩
    · by_cases hl : l = []
      · rw [(ih12 hl).1, hactA]
      · exact (ih13 hl).1
    · by_cases hl : l = []
      · rw [(ih12 hl).2, hparAmod]
      · rw [(ih13 hl).2, hnm, hparAmod, Finset.insert_idem]

/-- Outcome of `load` on a single-entry search result for a parented node
whose pending action is neither Add nor Delete: the guard of lines 73-77
passes, and the final block of lines 114-123 either raises `KeyError` (the
entry set no attribute and the key is absent from the parent's
modified-children set) or succeeds with the attribute-set flag cleared, the
action cleared, the key removed from the parent's modified-children set, and
the changed flag cleared when the node itself stages no children. -/
theorem load_outcome (mv bin : String → Bool) (dS : String → String)
    (dV : Val → Val) (e : String × List (String × List String))
    (st : LDAPNodeState) (par : NodeCore) (rest : List NodeCore)
    (hname : nameFalsy st.name = false) (hsess : st.hasSession = true)
    (hact : st.action = none ∨ st.action = some Action.modify)
    (hanc : st.ancestors = par :: rest) :
    (e.2 = [] ∧ st.name.getD "" ∉ par.modified →
      load mv bin dS dV [e] st = Except.error LoadErr.keyError)
    ∧ ((e.2 ≠ [] ∨ st.name.getD "" ∈ par.modified) →
      ∃ st', load mv bin dS dV [e] st = Except.ok st'
        ∧ st'.core.attrsChanged = some false
        ∧ st'.action = none
        ∧ (∃ par' rest', st'.ancestors = par' :: rest'
            ∧ st.name.getD "" ∉ par'.modified)
        ∧ (st.core.added = ∅ ∧ st.core.modified = ∅ ∧ st.core.deleted = ∅ →
            st'.core.changed = false)) := by
  have hguard : ¬ (nameFalsy st.name = true ∨ ¬ st.hasSession = true
      ∨ st.action = some Action.add) := by
    rw [hname, hsess]
    rcases hact with h | h <;> rw [h] <;> simp
  unfold load
  rw [if_neg hguard]
  set st1 : LDAPNodeState := { st with attrs := [] } with hst1
  have hanc1 : st1.ancestors = par :: rest := hanc
  have hact1 : st1.action = none ∨ st1.action = some Action.modify := hact
  obtain ⟨par2, rest2, f1, f2, f3, f4, f5, f6, f7, f8, f9, f10, f11, f12, f13⟩ :=
    foldl_loadSetStep_facts mv bin dS dV e.2 st1 par rest hanc1 hact1
  dsimp only
  set st2 : LDAPNodeState := List.foldl (loadSetStep mv bin dS dV) st1 e.2
    with hst2
  have hcond2 : ¬ (st2.action = some Action.add
      ∨ st2.action = some Action.delete) := by
    rcases f11 with h | h <;> rw [h] <;> simp
  rw [if_neg hcond2, f8]
  dsimp only
  have hnm1 : st1.name = st.name := rfl
  rw [f1, hnm1]
  constructor
  · rintro ⟨hempty, hnotin⟩
    have hpar2 : par2 = par := (f12 hempty).2
    rw [hpar2, if_neg hnotin]
  · intro hor
    by_cases hin : st.name.getD "" ∈ par2.modified
    · rw [if_pos hin]
      obtain ⟨c, anc, hs, hh, ht⟩ := setChanged_cons_head false
        { changed := st2.core.changed, added := st2.core.added,
          modified := st2.core.modified, deleted := st2.core.deleted,
          attrsChanged := some false }
        ({ par2 with modified := par2.modified.erase (st.name.getD "") }
          :: rest2)
      rw [hs]
      dsimp only
      cases ht with
      | cons hp htrest =>
        rename_i parF restF
        have hparF : parF.modified = par2.modified.erase (st.name.getD "") := by
          rcases hp with rfl | rfl <;> rfl
        refine ⟨_, rfl, ?_, rfl, ⟨parF, restF, rfl, ?_⟩, ?_⟩
        · rcases hh with rfl | rfl <;> rfl
        · rw [hparF]
          exact Finset.not_mem_erase _ _
        · rintro ⟨ha, hm, hd⟩
          have hadd2 : st2.core.added = ∅ := by
            rw [f5]; exact ha
          have hmod2 : st2.core.modified = ∅ := by
            rw [f6]; exact hm
          have hdel2 : st2.core.deleted = ∅ := by
            rw [f7]; exact hd
          have hnb : ¬ blockedUnset
              { changed := st2.core.changed, added := st2.core.added,
                modified := st2.core.modified, deleted := st2.core.deleted,
                attrsChanged := some false } := by
            rw [blockedUnset]
            dsimp only
            rw [hadd2, hmod2, hdel2]
            simp
          obtain ⟨anc2, hs2⟩ := setChanged_false_head
            { changed := st2.core.changed, added := st2.core.added,
              modified := st2.core.modified, deleted := st2.core.deleted,
              attrsChanged := some false }
            ({ par2 with modified := par2.modified.erase (st.name.getD "") }
              :: rest2) hnb
          have hceq := hs.symm.trans hs2
          injection hceq with hcEq hancEq
          show c.changed = false
          rw [hcEq]
    · exfalso
      by_cases hempty : e.2 = []
      · rcases hor with hne | hinpar
        · exact hne hempty
        · exact hin ((f12 hempty).2 ▸ hinpar)
      · have := (f13 hempty).2
        rw [hnm1] at this
        exact hin (this ▸ Finset.mem_insert_self _ _)

/-- A node with a pending attribute modification (action Modify, key staged
in the parent's modified-children set) that additionally stages one child
deletion. -/
def pendingModifyNode : LDAPNodeState :=
  ⟨some "cn=foo", true, some Action.modify, [("a", Val.single "old")], false,
    [], ⟨true, ∅, ∅, {"cn=child"}, some true⟩,
    [⟨true, ∅, {"cn=foo"}, ∅, none⟩]⟩

/-- A clean, freshly looked-up child: no pending action, nothing staged, its
key absent from the parent's modified-children set. -/
def freshChildNode : LDAPNodeState :=
  ⟨some "cn=foo", true, none, [], false, [], ⟨false, ∅, ∅, ∅, none⟩,
    [⟨false, ∅, ∅, ∅, none⟩]⟩

/-- C5 counterexample: on `pendingModifyNode`, which stages one child
deletion, the load completes, clears the pending action, but leaves the
node's changed flag `true` — the property setter refuses the unset while the
deleted-children set is non-empty, so the load does not clear the changed
flag of every node it completes on. -/
theorem load_changed_not_cleared_counterexample :
    (load (fun _ => false) (fun _ => false) id id
        [("cn=foo,dc=my-domain,dc=com", [("a", ["new"])])]
        pendingModifyNode).map
      (fun st' => (st'.action, st'.core.changed))
      = Except.ok (none, true) := by rfl

/-- C5 (amended): for a parented node pending neither Add nor Delete whose
load runs its main path successfully (guaranteed when the entry carries an
attribute or the key is staged in the parent's modified-children set), the
attribute-set changed flag is false afterwards, the pending action is
cleared, the key ends up removed from the parent's modified-children set,
and the node's changed flag is cleared provided the node itself stages no
added/modified/deleted children. -/
theorem load_clears_pending_modify (mv bin : String → Bool)
    (dS : String → String) (dV : Val → Val)
    (e : String × List (String × List String)) (st : LDAPNodeState)
    (par : NodeCore) (rest : List NodeCore)
    (hname : nameFalsy st.name = false) (hsess : st.hasSession = true)
    (hact : st.action = none ∨ st.action = some Action.modify)
    (hanc : st.ancestors = par :: rest)
    (hsucc : e.2 ≠ [] ∨ st.name.getD "" ∈ par.modified) :
    ∃ st', load mv bin dS dV [e] st = Except.ok st'
      ∧ st'.core.attrsChanged = some false
      ∧ st'.action = none
      ∧ (∃ par' rest', st'.ancestors = par' :: rest'
          ∧ st.name.getD "" ∉ par'.modified)
      ∧ (st.core.added = ∅ ∧ st.core.modified = ∅ ∧ st.core.deleted = ∅ →
          st'.core.changed = false) :=
  (load_outcome mv bin dS dV e st par rest hname hsess hact hanc).2 hsucc

/-- Witness for `load_clears_pending_modify` on the fresh child and a
one-attribute entry. -/
theorem load_clears_pending_modify_witness :
    (nameFalsy freshChildNode.name = false
      ∧ freshChildNode.hasSession = true
      ∧ (freshChildNode.action = none
          ∨ freshChildNode.action = some Action.modify)
      ∧ freshChildNode.ancestors = ⟨false, ∅, ∅, ∅, none⟩ :: []
      ∧ ((("cn=foo,dc=my-domain,dc=com", [("objectClass", ["top"])]) :
          String × List (String × List String)).2 ≠ []
        ∨ freshChildNode.name.getD "" ∈ (⟨false, ∅, ∅, ∅, none⟩ : NodeCore).modified))
    ∧ ∃ st', load (fun _ => false) (fun _ => false) id id
          [("cn=foo,dc=my-domain,dc=com", [("objectClass", ["top"])])]
          freshChildNode = Except.ok st'
        ∧ st'.core.attrsChanged = some false
        ∧ st'.action = none
        ∧ (∃ par' rest', st'.ancestors = par' :: rest'
            ∧ freshChildNode.name.getD "" ∉ par'.modified)
        ∧ (freshChildNode.core.added = ∅ ∧ freshChildNode.core.modified = ∅
            ∧ freshChildNode.core.deleted = ∅ →
            st'.core.changed = false) :=
  ⟨⟨rfl, rfl, Or.inl rfl, rfl, Or.inl (by decide)⟩,
    load_clears_pending_modify (fun _ => false) (fun _ => false) id id
      ("cn=foo,dc=my-domain,dc=com", [("objectClass", ["top"])])
      freshChildNode ⟨false, ∅, ∅, ∅, none⟩ [] rfl rfl (Or.inl rfl) rfl
      (Or.inl (by decide))⟩

/-- C10 counterexample: loading a clean, freshly looked-up child (action
unset, key absent from the parent's modified-children set) with a normal
one-attribute entry completes without `KeyError` — the attribute writes of
the load itself insert the key into the parent's modified-children set
before line 121 removes it. -/
theorem load_fresh_child_no_keyerror_counterexample :
    (load (fun _ => false) (fun _ => false) id id
        [("cn=foo,dc=my-domain,dc=com", [("objectClass", ["top"])])]
        freshChildNode).map (fun _ => ()) = Except.ok ()
    ∧ ∀ par ∈ freshChildNode.ancestors, "cn=foo" ∉ par.modified := by
  constructor
  · rfl
  · decide

/-- C10 (amended): for a parented node pending neither Add nor Delete, the
final step of `load` removes the node's key from the parent's
modified-children set unconditionally, but the attribute writes performed
during the load itself first insert that key whenever the entry carries at
least one attribute; hence `KeyError` is raised exactly when the loaded
entry sets no attribute while the key is absent from the set, and every
successful load ends with the key removed. -/
theorem load_modified_children_removal (mv bin : String → Bool)
    (dS : String → String) (dV : Val → Val)
    (e : String × List (String × List String)) (st : LDAPNodeState)
    (par : NodeCore) (rest : List NodeCore)
    (hname : nameFalsy st.name = false) (hsess : st.hasSession = true)
    (hact : st.action = none ∨ st.action = some Action.modify)
    (hanc : st.ancestors = par :: rest) :
    (load mv bin dS dV [e] st = Except.error LoadErr.keyError ↔
      e.2 = [] ∧ st.name.getD "" ∉ par.modified)
    ∧ (∀ st', load mv bin dS dV [e] st = Except.ok st' →
        ∃ par' rest', st'.ancestors = par' :: rest'
          ∧ st.name.getD "" ∉ par'.modified) := by
  have h := load_outcome mv bin dS dV e st par rest hname hsess hact hanc
  constructor
  · constructor
    · intro herr
      by_contra hnot
      push_neg at hnot
      have hor : e.2 ≠ [] ∨ st.name.getD "" ∈ par.modified := by
        by_cases hempty : e.2 = []
        · exact Or.inr (hnot hempty)
        · exact Or.inl hempty
      obtain ⟨st', hok, _⟩ := h.2 hor
      rw [hok] at herr
      cases herr
    · exact h.1
  · intro st' hok
    by_cases hor : e.2 ≠ [] ∨ st.name.getD "" ∈ par.modified
    · obtain ⟨st'', hok2, _, _, hanc', _⟩ := h.2 hor
      rw [hok2] at hok
      injection hok with he
      rw [← he]
      exact hanc'
    · push_neg at hor
      rw [h.1 hor] at hok
      cases hok

/-- Witness for `load_modified_children_removal` on the fresh child with an
attribute-less entry: the removal raises `KeyError` there. -/
theorem load_modified_children_removal_witness :
    (nameFalsy freshChildNode.name = false
      ∧ freshChildNode.hasSession = true
      ∧ (freshChildNode.action = none
          ∨ freshChildNode.action = some Action.modify)
      ∧ freshChildNode.ancestors = ⟨false, ∅, ∅, ∅, none⟩ :: [])
    ∧ (load (fun _ => false) (fun _ => false) id id
        [("cn=foo,dc=my-domain,dc=com", [])] freshChildNode
          = Except.error LoadErr.keyError ↔
        (("cn=foo,dc=my-domain,dc=com", ([] : List (String × List String))) :
          String × List (String × List String)).2 = []
        ∧ freshChildNode.name.getD ""
            ∉ (⟨false, ∅, ∅, ∅, none⟩ : NodeCore).modified) :=
  ⟨⟨rfl, rfl, Or.inl rfl, rfl⟩,
    (load_modified_children_removal (fun _ => false) (fun _ => false) id id
      ("cn=foo,dc=my-domain,dc=com", []) freshChildNode
      ⟨false, ∅, ∅, ∅, none⟩ [] rfl rfl (Or.inl rfl) rfl).1⟩

/-! ## `LDAPStorage.invalidate` (`_node.py` lines 574-606) -/

/-- `_set_attrs_modified` never touches the child cache. -/
theorem setAttrsModified_storage (st : LDAPNodeState) :
    (setAttrsModified st).storage = st.storage := by
  unfold setAttrsModified
  split
  · rfl
  · dsimp only
    split <;> rfl

/-- The plumbed attribute write never touches the child cache. -/
theorem attrsSetitem_storage (bin : String → Bool) (dS : String → String)
    (dV : Val → Val) (st : LDAPNodeState) (k : String) (v : Val) :
    (attrsSetitem bin dS dV st k v).storage = st.storage := by
  unfold attrsSetitem
  exact setAttrsModified_storage _

/-- The attribute-storing loop never touches the child cache. -/
theorem foldl_loadSetStep_storage (mv bin : String → Bool)
    (dS : String → String) (dV : Val → Val) :
    ∀ (l : List (String × List String)) (st : LDAPNodeState),
      (l.foldl (loadSetStep mv bin dS dV) st).storage = st.storage := by
  intro l
  induction l with
  | nil => intro st; rfl
  | cons kv l ih =>
    intro st
    rw [List.foldl_cons, ih]
    unfold loadSetStep
    split <;> apply attrsSetitem_storage

/-- `load` never touches the child cache. -/
theorem load_storage (mv bin : String → Bool) (dS : String → String)
    (dV : Val → Val) (entry : List (String × List (String × List String)))
    (st r : LDAPNodeState) (h : load mv bin dS dV entry st = Except.ok r) :
    r.storage = st.storage := by
  unfold load at h
  split at h
  · injection h with h'
    rw [← h']
  · split at h
    · dsimp only at h
      repeat' (first
        | (injection h with h'
           rw [← h']
           exact foldl_loadSetStep_storage mv bin dS dV _ _)
        | exact Except.noConfusion h
        | split at h)
    · exact Except.noConfusion h

/-- Failures of `invalidate`. -/
inductive InvErr
  | invalidState        -- RuntimeError lines 591-592 / 601-603
  | loadFailed (e : LoadErr)
deriving DecidableEq

/-- `invalidate` (lines 574-606).  Without a key: a changed node raises
before any mutation; otherwise the child cache is cleared, the node's own
attributes are reloaded (cf. `load`) and the reload flag is set.  With a
key: a cached changed child raises, a cached unchanged child is evicted, an
uncached key is a no-op (`KeyError` is swallowed). -/
def invalidate (mv bin : String → Bool) (dS : String → String)
    (dV : Val → Val) (entry : List (String × List (String × List String)))
    (st : LDAPNodeState) (key : Option String) :
    Except InvErr LDAPNodeState :=
  match key with
  | none =>
    if st.core.changed then .error .invalidState
    else
      let st1 := { st with storage := [] }
      match load mv bin dS dV entry st1 with
      | .error e => .error (.loadFailed e)
      | .ok st2 => .ok { st2 with reload := true }
  | some k =>
    match lookupC st.storage k with
    | none => .ok st
    | some c =>
      if c.changed then .error .invalidState
      else .ok { st with storage := eraseC st.storage k }

/-- C6: `invalidate()` on a changed node raises InvalidState (the raise
precedes every mutation); on an unchanged node it clears the whole child
cache, reloads the node's own attributes and sets the reload flag.
`invalidate(key)` raises InvalidState on a cached changed child, evicts a
cached unchanged child and changes nothing else, and is a no-op for an
uncached key. -/
theorem invalidate_behaviour (mv bin : String → Bool) (dS : String → String)
    (dV : Val → Val) (entry : List (String × List (String × List String)))
    (st : LDAPNodeState) :
    (st.core.changed = true →
      invalidate mv bin dS dV entry st none = Except.error InvErr.invalidState)
    ∧ (st.core.changed = false →
      ∀ st2, load mv bin dS dV entry { st with storage := [] } = Except.ok st2 →
        invalidate mv bin dS dV entry st none
          = Except.ok { st2 with reload := true }
        ∧ st2.storage = [] ∧ ({ st2 with reload := true }).reload = true)
    ∧ (∀ k c, lookupC st.storage k = some c → c.changed = true →
        invalidate mv bin dS dV entry st (some k)
          = Except.error InvErr.invalidState)
    ∧ (∀ k c, lookupC st.storage k = some c → c.changed = false →
        invalidate mv bin dS dV entry st (some k)
          = Except.ok { st with storage := eraseC st.storage k })
    ∧ (∀ k, lookupC st.storage k = none →
        invalidate mv bin dS dV entry st (some k) = Except.ok st) := by
  refine ⟨?_, ?_, ?_, ?_, ?_⟩
  · intro hch
    unfold invalidate
    rw [if_pos hch]
  · intro hch st2 hload
    unfold invalidate
    rw [if_neg (by rw [hch]; simp : ¬ st.core.changed = true)]
    dsimp only
    rw [hload]
    exact ⟨rfl, load_storage mv bin dS dV entry _ _ hload, rfl⟩
  · intro k c hlk hch
    unfold invalidate
    dsimp only
    rw [hlk]
    dsimp only
    rw [if_pos hch]
  · intro k c hlk hch
    unfold invalidate
    dsimp only
    rw [hlk]
    dsimp only
    rw [if_neg (by rw [hch]; simp : ¬ c.changed = true)]
  · intro k hlk
    unfold invalidate
    dsimp only
    rw [hlk]

/-- An unchanged parent with one clean child `cn=a` and one changed child
`cn=b`. -/
def invalidateSample : LDAPNodeState :=
  ⟨some "ou=users", true, none, [], false,
    [("cn=a", ⟨none, false, none⟩), ("cn=b", ⟨none, true, some true⟩)],
    ⟨false, ∅, ∅, ∅, some false⟩, []⟩

/-- The same node with its changed flag set. -/
def invalidateSampleChanged : LDAPNodeState :=
  ⟨some "ou=users", true, none, [], false,
    [("cn=a", ⟨none, false, none⟩), ("cn=b", ⟨none, true, some true⟩)],
    ⟨true, ∅, ∅, ∅, some true⟩, []⟩

/-- Witness for `invalidate_behaviour` on the concrete samples, exercising
all five branches. -/
theorem invalidate_behaviour_witness :
    invalidate (fun _ => false) (fun _ => false) id id
        [("ou=users,dc=x", [("objectClass", ["top"])])]
        invalidateSampleChanged none = Except.error InvErr.invalidState
    ∧ (∃ st2, load (fun _ => false) (fun _ => false) id id
          [("ou=users,dc=x", [("objectClass", ["top"])])]
          { invalidateSample with storage := [] } = Except.ok st2
        ∧ invalidate (fun _ => false) (fun _ => false) id id
            [("ou=users,dc=x", [("objectClass", ["top"])])]
            invalidateSample none = Except.ok { st2 with reload := true }
        ∧ st2.storage = [] ∧ ({ st2 with reload := true }).reload = true)
    ∧ invalidate (fun _ => false) (fun _ => false) id id
        [("ou=users,dc=x", [("objectClass", ["top"])])]
        invalidateSample (some "cn=b") = Except.error InvErr.invalidState
    ∧ invalidate (fun _ => false) (fun _ => false) id id
        [("ou=users,dc=x", [("objectClass", ["top"])])]
        invalidateSample (some "cn=a")
      = Except.ok { invalidateSample with
          storage := eraseC invalidateSample.storage "cn=a" }
    ∧ invalidate (fun _ => false) (fun _ => false) id id
        [("ou=users,dc=x", [("objectClass", ["top"])])]
        invalidateSample (some "cn=zz") = Except.ok invalidateSample := by
  have h := invalidate_behaviour (fun _ => false) (fun _ => false) id id
    [("ou=users,dc=x", [("objectClass", ["top"])])] invalidateSample
  have hch := invalidate_behaviour (fun _ => false) (fun _ => false) id id
    [("ou=users,dc=x", [("objectClass", ["top"])])] invalidateSampleChanged
  refine ⟨hch.1 rfl, ⟨_, rfl, h.2.1 rfl _ rfl⟩, ?_, ?_, ?_⟩
  · exact h.2.2.1 "cn=b" ⟨none, true, some true⟩ (by rfl) rfl
  · exact h.2.2.2.1 "cn=a" ⟨none, false, none⟩ (by rfl) rfl
  · exact h.2.2.2.2 "cn=zz" (by rfl)

/-! ## `LDAPStorage.search` (`_node.py` lines 490-572) -/

/-- A search result item: the key alone when no attribute list was
requested, otherwise the key with the extracted attribute mapping
(lines 553-569). -/
inductive SearchItem
  | keyOnly (key : String)
  | withAttrs (key : String) (attrs : List (String × Val))
deriving DecidableEq

/-- The two `ValueError`s of the exact-match check (lines 548-551). -/
inductive SearchErr
  | exactNotUnique
  | exactZero
deriving DecidableEq

/-- Lines 553-569 for one raw match `(dn, attrs)`: compute the key
(`calcKey` embeds `_calculate_key`, lines 661-675, whose `explode_dn` is
boundary code) and, when an attribute list was requested, keep only the
requested attributes, decoding names and non-binary values, plus the
decoded DN when `dn` was requested. -/
def searchResultItem (calcKey : String → List (String × Val) → String)
    (isBinary : String → Bool) (decS : String → String) (decV : Val → Val)
    (attrlist : Option (List String)) (m : String × List (String × Val)) :
    SearchItem :=
  let key := calcKey m.1 m.2
  match attrlist with
  | none => SearchItem.keyOnly key
  | some al =>
    let resattr := m.2.foldl (fun acc kv =>
      if kv.1 ∈ al then
        acc ++ [(decS kv.1, if isBinary kv.1 then kv.2 else decV kv.2)]
      else acc) []
    let resattr := if "dn" ∈ al then
        resattr ++ [("dn", Val.single (decS m.1))]
      else resattr
    SearchItem.withAttrs key resattr

/-- `search` (lines 490-572) in the unpaged case.  Filter construction
(lines 503-530) happens before the boundary call and is folded into the
boundary input: `found` is what the session's search returned.  With
`exact_match`, more than one match raises first (line 548), zero matches
raises next (line 550); otherwise the result list is built match by
match. -/
def ldapSearch (calcKey : String → List (String × Val) → String)
    (isBinary : String → Bool) (decS : String → String) (decV : Val → Val)
    (attrlist : Option (List String)) (exactMatch : Bool)
    (found : List (String × List (String × Val))) :
    Except SearchErr (List SearchItem) :=
  if exactMatch ∧ found.length > 1 then .error .exactNotUnique
  else if exactMatch ∧ found.length = 0 then .error .exactZero
  else .ok (found.map (searchResultItem calcKey isBinary decS decV attrlist))

/-- C7: with `exact_match` requested, a search whose boundary result is
empty raises, one with two or more matches raises, and one with exactly one
match returns that single processed result as a one-element list. -/
theorem search_exact_match (calcKey : String → List (String × Val) → String)
    (isBinary : String → Bool) (decS : String → String) (decV : Val → Val)
    (attrlist : Option (List String))
    (m m2 : String × List (String × Val))
    (rest : List (String × List (String × Val))) :
    ldapSearch calcKey isBinary decS decV attrlist true []
      = Except.error SearchErr.exactZero
    ∧ ldapSearch calcKey isBinary decS decV attrlist true [m]
      = Except.ok [searchResultItem calcKey isBinary decS decV attrlist m]
    ∧ ldapSearch calcKey isBinary decS decV attrlist true (m :: m2 :: rest)
      = Except.error SearchErr.exactNotUnique := by
  refine ⟨?_, ?_, ?_⟩
  · simp [ldapSearch]
  · simp [ldapSearch]
  · have hlen : (m :: m2 :: rest).length > 1 := by
      simp [List.length_cons]
    simp [ldapSearch, hlen]

/-! ## `ugm/posix.py`: `uidNumber` (lines 34-48) and `gidNumber`
(lines 51-59) -/

/-- Python exceptions surfaced by the POSIX callbacks. -/
inductive PyErr
  | unboundLocal     -- UnboundLocalError
  | keyOrIndexError  -- KeyError / IndexError on a malformed search result
deriving DecidableEq

/-- One entry of `node.search(criteria={attr: '*'}, attrlist=[attr])`:
`(key, attribute mapping)`, the values already turned into integers as
`int(...)` does. -/
abbrev PosixEntry := String × List (String × List Int)

/-- Lookup in a result attribute mapping. -/
def lookupP : List (String × List Int) → String → Option (List Int)
  | [], _ => none
  | (k, v) :: rest, key => if k = key then some v else lookupP rest key

/-- `int(item[1][attr][0])`: `none` models the `KeyError`/`IndexError` a
missing or empty attribute would raise. -/
def intValue (attr : String) (item : PosixEntry) : Option Int :=
  match lookupP item.2 attr with
  | none => none
  | some [] => none
  | some (v :: _) => some v

/-- `uidNumber` (posix.py lines 34-48).  `node` is `none` for the documented
second, node-less call.  Because line 47 assigns `uidNumber_tmp` inside the
function without a `global` declaration, Python compiles `uidNumber_tmp` as
a local variable of the whole function body, so the `return uidNumber_tmp`
of line 41 raises `UnboundLocalError` and the module-level
`uidNumber_tmp = ''` of line 34 is never updated.  With a node, the existing
values are collected, sorted, and one more than the maximum is returned as
text, `"100"` when none exist. -/
def uidNumber (node : Option (List PosixEntry)) (_id : String) :
    Except PyErr String :=
  match node with
  | none => .error .unboundLocal
  | some existing =>
    match existing.mapM (intValue "uidNumber") with
    | none => .error .keyOrIndexError
    | some vals =>
      match List.insertionSort (· ≤ ·) vals with
      | [] => .ok "100"
      | v :: vs => .ok (toString ((v :: vs).getLast (List.cons_ne_nil v vs) + 1))

/-- `gidNumber` (posix.py lines 51-59): same allocation over `gidNumber`,
but the node-less call returns the empty text instead of touching any
process-wide state. -/
def gidNumber (node : Option (List PosixEntry)) (_id : String) :
    Except PyErr String :=
  match node with
  | none => .ok ""
  | some existing =>
    match existing.mapM (intValue "gidNumber") with
    | none => .error .keyOrIndexError
    | some vals =>
      match List.insertionSort (· ≤ ·) vals with
      | [] => .ok "100"
      | v :: vs => .ok (toString ((v :: vs).getLast (List.cons_ne_nil v vs) + 1))

/-- A population whose existing uidNumber values are {103, 100, 107}. -/
def posixUidPopulation : List PosixEntry :=
  [("uid=u1", [("uidNumber", [103])]), ("uid=u2", [("uidNumber", [100])]),
   ("uid=u3", [("uidNumber", [107])])]

/-- The same population keyed by gidNumber. -/
def posixGidPopulation : List PosixEntry :=
  [("cn=g1", [("gidNumber", [103])]), ("cn=g2", [("gidNumber", [100])]),
   ("cn=g3", [("gidNumber", [107])])]

/-- C8: `uidNumber` over existing values {100, 103, 107} returns `"108"`,
over an empty population `"100"`; `gidNumber` behaves identically over its
own attribute and returns empty text, not an error, when invoked with no
node. -/
theorem posix_number_allocation (idv : String) :
    uidNumber (some posixUidPopulation) idv = Except.ok "108"
    ∧ uidNumber (some []) idv = Except.ok "100"
    ∧ gidNumber (some posixGidPopulation) idv = Except.ok "108"
    ∧ gidNumber (some []) idv = Except.ok "100"
    ∧ gidNumber none idv = Except.ok "" :=
  ⟨rfl, rfl, rfl, rfl, rfl⟩

/-- C9: invoking `uidNumber` with no node raises `UnboundLocalError` instead
of returning a previously computed value — the function-local assignment of
line 47 shadows the module-level cache, which is never written. -/
theorem uidNumber_no_node_unbound_local (idv : String) :
    uidNumber none idv = Except.error PyErr.unboundLocal := rfl
